import Mathlib

/-!
Verification of the query-resolution core of the `geoai_osm_llm` repository:
the RAG retriever and tag voting (`src/rag/retriever.py`), the LLM JSON
extraction and validation (`src/llm/ollama_client.py`, `src/query/llm_parser.py`),
and the place/tag resolution chains of the orchestrator (`src/pipeline.py`).

Similarity scores and JSON numbers are modelled as rationals; Python `str | None`
fields become `Option String`; dictionaries built by the code become
insertion-ordered association lists; the network is an explicit outcome parameter.
-/

namespace GeoAI

/-- A retrieved document chunk (`RetrievedChunk` in `src/rag/retriever.py`).
Similarity scores are modelled as rationals. -/
structure RetrievedChunk where
  score : ℚ
  page_content : String
  url : String
  title : String
  key : Option String
  value : Option String
deriving DecidableEq, Repr

/-- Python truthiness of a `str | None` field (`if chunk.key and chunk.value`):
`None` and the empty string are falsy. -/
def strTruthy : Option String → Bool
  | none => false
  | some s => !s.isEmpty

/-- One update of the vote dictionary, mirroring
`votes[tag] = votes.get(tag, 0.0) + chunk.score` on a Python `dict`:
an existing key keeps its position, a new key is appended at the back. -/
def addVote : List ((String × String) × ℚ) → (String × String) → ℚ →
    List ((String × String) × ℚ)
  | [], tag, s => [(tag, s)]
  | (t, w) :: rest, tag, s =>
      if t = tag then (t, w + s) :: rest else (t, w) :: addVote rest tag s

/-- The vote pool built by the loop in `pick_tag_from_chunks`
(`src/rag/retriever.py`, lines 116-121). -/
def buildVotes (chunks : List RetrievedChunk) : List ((String × String) × ℚ) :=
  chunks.foldl
    (fun votes c =>
      if strTruthy c.key && strTruthy c.value then
        addVote votes (c.key.getD "", c.value.getD "") c.score
      else votes)
    []

/-- Python `max(votes.items(), key=lambda x: x[1])`: the running maximum is
replaced only on a strictly greater weight, so ties keep the earliest item. -/
def maxVote : List ((String × String) × ℚ) → Option ((String × String) × ℚ)
  | [] => none
  | v :: rest => some (rest.foldl (fun best x => if best.2 < x.2 then x else best) v)

/-- `pick_tag_from_chunks` (`src/rag/retriever.py`, lines 101-131): weighted
voting over the retrieved chunks; raising `ValueError` is modelled as
`Except.error` carrying the message. -/
def pick_tag_from_chunks (chunks : List RetrievedChunk) :
    Except String (String × String) :=
  match maxVote (buildVotes chunks) with
  | none => .error ("No valid (key, value) found in retrieved chunks. " ++
      "Consider expanding wiki seeds or adjusting the query.")
  | some (tag, _) => .ok tag

/-- A chunk casts a vote for `tag` exactly when its key and value are non-empty
and equal to `tag`'s components. -/
def contributes (tag : String × String) (c : RetrievedChunk) : Bool :=
  c.key == some tag.1 && c.value == some tag.2 &&
    !tag.1.isEmpty && !tag.2.isEmpty

/-- Specification-side accumulated weight of a tag: the sum of the scores of all
chunks voting for it. -/
def totalWeight : List RetrievedChunk → (String × String) → ℚ
  | [], _ => 0
  | c :: cs, tag => (if contributes tag c then c.score else 0) + totalWeight cs tag

/-- Weight recorded in the vote pool for a tag (`0` when absent). -/
def lookupW : List ((String × String) × ℚ) → (String × String) → ℚ
  | [], _ => 0
  | (t, w) :: rest, tag => if t = tag then w else lookupW rest tag

theorem lookupW_addVote (votes : List ((String × String) × ℚ))
    (t tag : String × String) (s : ℚ) :
    lookupW (addVote votes t s) tag =
      if tag = t then lookupW votes tag + s else lookupW votes tag := by
  induction votes with
  | nil =>
      by_cases h : tag = t
      · subst h; simp [addVote, lookupW]
      · have h' : ¬t = tag := fun e => h e.symm
        simp [addVote, lookupW, h, h']
  | cons v rest ih =>
      obtain ⟨a, w⟩ := v
      by_cases hat : a = t
      · subst hat
        by_cases h : tag = a
        · subst h; simp [addVote, lookupW]
        · have h' : ¬a = tag := fun e => h e.symm
          simp [addVote, lookupW, h, h']
      · by_cases h : a = tag
        · have h' : ¬tag = t := fun e => hat (h.trans e)
          simp [addVote, hat, lookupW, h, h']
        · simp [addVote, hat, lookupW, h, ih]

/-- The loop body of `pick_tag_from_chunks` as a named step function. -/
def voteStep (votes : List ((String × String) × ℚ)) (c : RetrievedChunk) :
    List ((String × String) × ℚ) :=
  if strTruthy c.key && strTruthy c.value then
    addVote votes (c.key.getD "", c.value.getD "") c.score
  else votes

theorem buildVotes_eq_foldl (chunks : List RetrievedChunk) :
    buildVotes chunks = chunks.foldl voteStep [] := rfl

theorem contributes_iff (tag : String × String) (c : RetrievedChunk) :
    contributes tag c = true ↔
      ((strTruthy c.key && strTruthy c.value) = true ∧
        tag = (c.key.getD "", c.value.getD "")) := by
  obtain ⟨k, v⟩ := tag
  cases hk : c.key with
  | none => simp [contributes, strTruthy, hk]
  | some a =>
    cases hv : c.value with
    | none => simp [contributes, strTruthy, hk, hv]
    | some b =>
      simp only [contributes, strTruthy, hk, hv, Option.getD_some, Bool.and_eq_true,
        beq_iff_eq, Option.some.injEq, Bool.not_eq_eq_eq_not, Bool.not_true,
        Prod.mk.injEq]
      constructor
      · rintro ⟨⟨⟨hak, hbv⟩, hke⟩, hve⟩
        subst hak; subst hbv
        simp_all [Bool.not_eq_true]
      · rintro ⟨⟨hae, hbe⟩, hka, hvb⟩
        subst hka; subst hvb
        simp_all [Bool.not_eq_true]

theorem lookupW_foldl (chunks : List RetrievedChunk) :
    ∀ (votes : List ((String × String) × ℚ)) (tag : String × String),
      lookupW (chunks.foldl voteStep votes) tag =
        lookupW votes tag + totalWeight chunks tag := by
  induction chunks with
  | nil => intro votes tag; simp [totalWeight]
  | cons c cs ih =>
    intro votes tag
    simp only [List.foldl_cons]
    rw [ih, totalWeight]
    by_cases hg : (strTruthy c.key && strTruthy c.value) = true
    · rw [show voteStep votes c =
          addVote votes (c.key.getD "", c.value.getD "") c.score from if_pos hg]
      rw [lookupW_addVote]
      by_cases ht : tag = (c.key.getD "", c.value.getD "")
      · have hc : contributes tag c = true := (contributes_iff _ _).mpr ⟨hg, ht⟩
        rw [if_pos ht, if_pos hc]; ring
      · have hc : ¬contributes tag c = true := by
          intro h; exact ht ((contributes_iff _ _).mp h).2
        rw [if_neg ht, if_neg hc]; ring
    · rw [show voteStep votes c = votes from if_neg hg]
      have hc : ¬contributes tag c = true := by
        intro h; exact hg ((contributes_iff _ _).mp h).1
      rw [if_neg hc]; ring

theorem lookupW_buildVotes (chunks : List RetrievedChunk) (tag : String × String) :
    lookupW (buildVotes chunks) tag = totalWeight chunks tag := by
  rw [buildVotes_eq_foldl, lookupW_foldl]; simp [lookupW]

/-- The tags present in a vote pool. -/
def voteKeys (votes : List ((String × String) × ℚ)) : List (String × String) :=
  votes.map Prod.fst

theorem mem_voteKeys_addVote (votes : List ((String × String) × ℚ))
    (t tag : String × String) (s : ℚ) :
    tag ∈ voteKeys (addVote votes t s) ↔ tag ∈ voteKeys votes ∨ tag = t := by
  induction votes with
  | nil => simp [addVote, voteKeys]
  | cons v rest ih =>
    obtain ⟨a, w⟩ := v
    by_cases hat : a = t
    · subst hat; simp [addVote, voteKeys]
      intro h; simp [h]
    · simp [addVote, hat, voteKeys] at ih ⊢
      rw [ih]; tauto

theorem mem_voteKeys_foldl (chunks : List RetrievedChunk) :
    ∀ (votes : List ((String × String) × ℚ)) (tag : String × String),
      tag ∈ voteKeys (chunks.foldl voteStep votes) ↔
        tag ∈ voteKeys votes ∨ ∃ c ∈ chunks, contributes tag c = true := by
  induction chunks with
  | nil => intro votes tag; simp
  | cons c cs ih =>
    intro votes tag
    simp only [List.foldl_cons, ih, List.mem_cons]
    by_cases hg : (strTruthy c.key && strTruthy c.value) = true
    · rw [show voteStep votes c =
          addVote votes (c.key.getD "", c.value.getD "") c.score from if_pos hg]
      rw [mem_voteKeys_addVote]
      constructor
      · rintro (⟨h | h⟩ | ⟨d, hd, hc⟩)
        · exact Or.inl h
        · exact Or.inr ⟨c, Or.inl rfl, (contributes_iff _ _).mpr ⟨hg, h⟩⟩
        · exact Or.inr ⟨d, Or.inr hd, hc⟩
      · rintro (h | ⟨d, hd | hd, hc⟩)
        · exact Or.inl (Or.inl h)
        · exact Or.inl (Or.inr (by subst hd; exact ((contributes_iff _ _).mp hc).2))
        · exact Or.inr ⟨d, hd, hc⟩
    · rw [show voteStep votes c = votes from if_neg hg]
      constructor
      · rintro (h | ⟨d, hd, hc⟩)
        · exact Or.inl h
        · exact Or.inr ⟨d, Or.inr hd, hc⟩
      · rintro (h | ⟨d, hd | hd, hc⟩)
        · exact Or.inl h
        · exact absurd ((contributes_iff _ _).mp hc).1 (by subst hd; exact hg)
        · exact Or.inr ⟨d, hd, hc⟩

theorem mem_voteKeys_buildVotes (chunks : List RetrievedChunk)
    (tag : String × String) :
    tag ∈ voteKeys (buildVotes chunks) ↔ ∃ c ∈ chunks, contributes tag c = true := by
  rw [buildVotes_eq_foldl, mem_voteKeys_foldl]; simp [voteKeys]

theorem voteKeys_addVote_nodup (votes : List ((String × String) × ℚ))
    (t : String × String) (s : ℚ) (h : (voteKeys votes).Nodup) :
    (voteKeys (addVote votes t s)).Nodup := by
  induction votes with
  | nil => simp [addVote, voteKeys]
  | cons v rest ih =>
    obtain ⟨a, w⟩ := v
    simp only [voteKeys, List.map_cons, List.nodup_cons] at h
    by_cases hat : a = t
    · subst hat
      simpa [addVote, voteKeys, List.nodup_cons] using h
    · simp only [addVote, hat, if_false, voteKeys, List.map_cons, List.nodup_cons]
      refine ⟨?_, ih h.2⟩
      intro hmem
      rw [show (addVote rest t s).map Prod.fst = voteKeys (addVote rest t s) from rfl,
        mem_voteKeys_addVote] at hmem
      rcases hmem with h' | h'
      · exact h.1 h'
      · exact hat h'

theorem voteKeys_foldl_nodup (chunks : List RetrievedChunk) :
    ∀ votes : List ((String × String) × ℚ), (voteKeys votes).Nodup →
      (voteKeys (chunks.foldl voteStep votes)).Nodup := by
  induction chunks with
  | nil => intro votes h; simpa using h
  | cons c cs ih =>
    intro votes h
    simp only [List.foldl_cons]
    apply ih
    unfold voteStep
    by_cases hg : (strTruthy c.key && strTruthy c.value) = true
    · rw [if_pos hg]; exact voteKeys_addVote_nodup _ _ _ h
    · rw [if_neg hg]; exact h

theorem mem_votes_lookupW (votes : List ((String × String) × ℚ))
    (tag : String × String) (w : ℚ) (hmem : (tag, w) ∈ votes)
    (hnd : (voteKeys votes).Nodup) : lookupW votes tag = w := by
  induction votes with
  | nil => cases hmem
  | cons v rest ih =>
    obtain ⟨a, w'⟩ := v
    simp only [voteKeys, List.map_cons, List.nodup_cons] at hnd
    rcases List.mem_cons.mp hmem with h | h
    · obtain ⟨h1, h2⟩ := Prod.mk.injEq .. ▸ h.symm
      subst h1; subst h2; simp [lookupW]
    · have hne : ¬a = tag := by
        intro he; subst he
        exact hnd.1 (List.mem_map.mpr ⟨(a, w), h, rfl⟩)
      simp only [lookupW, hne, if_false]
      exact ih h hnd.2

theorem foldl_maxVote_mem (xs : List ((String × String) × ℚ)) :
    ∀ v : (String × String) × ℚ,
      xs.foldl (fun best x => if best.2 < x.2 then x else best) v ∈ v :: xs := by
  induction xs with
  | nil => intro v; simp
  | cons x xs ih =>
    intro v
    simp only [List.foldl_cons]
    rcases List.mem_cons.mp (ih (if v.2 < x.2 then x else v)) with h | h
    · rw [h]
      by_cases hc : v.2 < x.2 <;> simp [hc]
    · simp [h]

theorem foldl_maxVote_ge (xs : List ((String × String) × ℚ)) :
    ∀ v : (String × String) × ℚ,
      v.2 ≤ (xs.foldl (fun best x => if best.2 < x.2 then x else best) v).2 ∧
      ∀ x ∈ xs, x.2 ≤ (xs.foldl (fun best x => if best.2 < x.2 then x else best) v).2 := by
  induction xs with
  | nil => intro v; simp
  | cons x xs ih =>
    intro v
    simp only [List.foldl_cons]
    obtain ⟨h1, h2⟩ := ih (if v.2 < x.2 then x else v)
    have hv : v.2 ≤ (if v.2 < x.2 then x else v).2 := by
      by_cases hc : v.2 < x.2 <;> simp [hc]
      exact le_of_lt hc
    have hx : x.2 ≤ (if v.2 < x.2 then x else v).2 := by
      by_cases hc : v.2 < x.2 <;> simp [hc]
      exact le_of_not_lt hc
    exact ⟨le_trans hv h1, fun y hy => by
      rcases List.mem_cons.mp hy with h | h
      · subst h; exact le_trans hx h1
      · exact h2 y h⟩

theorem maxVote_spec (l : List ((String × String) × ℚ))
    (m : (String × String) × ℚ) (h : maxVote l = some m) :
    m ∈ l ∧ ∀ x ∈ l, x.2 ≤ m.2 := by
  cases l with
  | nil => cases h
  | cons v rest =>
    simp only [maxVote, Option.some.injEq] at h
    subst h
    refine ⟨foldl_maxVote_mem rest v, fun x hx => ?_⟩
    obtain ⟨h1, h2⟩ := foldl_maxVote_ge rest v
    rcases List.mem_cons.mp hx with h | h
    · subst h; exact h1
    · exact h2 x h

theorem maxVote_none_iff (l : List ((String × String) × ℚ)) :
    maxVote l = none ↔ l = [] := by
  cases l <;> simp [maxVote]

theorem pick_tag_eq_ok (chunks : List RetrievedChunk) (tag : String × String) :
    pick_tag_from_chunks chunks = .ok tag ↔
      ∃ w, maxVote (buildVotes chunks) = some (tag, w) := by
  unfold pick_tag_from_chunks
  cases h : maxVote (buildVotes chunks) with
  | none => simp
  | some m => obtain ⟨t, w⟩ := m; simp [eq_comm]

theorem pick_tag_eq_error (chunks : List RetrievedChunk) :
    (∃ e, pick_tag_from_chunks chunks = .error e) ↔
      maxVote (buildVotes chunks) = none := by
  unfold pick_tag_from_chunks
  cases h : maxVote (buildVotes chunks) with
  | none => simp
  | some m => obtain ⟨t, w⟩ := m; simp

theorem buildVotes_eq_nil_iff (chunks : List RetrievedChunk) :
    buildVotes chunks = [] ↔
      ∀ c ∈ chunks, (strTruthy c.key && strTruthy c.value) = false := by
  constructor
  · intro h c hc
    by_contra hg
    rw [Bool.not_eq_false] at hg
    have : (c.key.getD "", c.value.getD "") ∈ voteKeys (buildVotes chunks) :=
      (mem_voteKeys_buildVotes _ _).mpr ⟨c, hc, (contributes_iff _ _).mpr ⟨hg, rfl⟩⟩
    rw [h] at this; cases this
  · intro h
    cases hb : buildVotes chunks with
    | nil => rfl
    | cons v rest =>
      exfalso
      have hv : v.1 ∈ voteKeys (buildVotes chunks) := by simp [hb, voteKeys]
      obtain ⟨c, hc, hcontrib⟩ := (mem_voteKeys_buildVotes _ _).mp hv
      have := ((contributes_iff _ _).mp hcontrib).1
      rw [h c hc] at this; cases this

/-- The concrete evidence list from the specification's tag-voting example. -/
def exVoteChunks : List RetrievedChunk :=
  [⟨9/10, "", "", "", some "amenity", some "cafe"⟩,
   ⟨1/10, "", "", "", some "amenity", some "cafe"⟩,
   ⟨5/10, "", "", "", some "highway", some "bus_stop"⟩]

/-- C1: tag voting accumulates each tagged chunk's score into a weight for its
`(key, value)` pair and returns a pair of maximum accumulated weight among the
pairs that received votes; when no chunk carries both a non-empty key and a
non-empty value the function fails with an error instead of returning a tag; on
the evidence `[(amenity,cafe,0.9), (amenity,cafe,0.1), (highway,bus_stop,0.5)]`
it returns `(amenity, cafe)` since `1.0 > 0.5`. -/
theorem pick_tag_voting_spec :
    (∀ chunks : List RetrievedChunk,
        (∃ e, pick_tag_from_chunks chunks = .error e) ↔
          ∀ c ∈ chunks, ¬((strTruthy c.key && strTruthy c.value) = true)) ∧
    (∀ (chunks : List RetrievedChunk) (tag : String × String),
        pick_tag_from_chunks chunks = .ok tag →
          ∀ tag' : String × String, (∃ c ∈ chunks, contributes tag' c = true) →
            totalWeight chunks tag' ≤ totalWeight chunks tag) ∧
    pick_tag_from_chunks exVoteChunks = .ok ("amenity", "cafe") := by
  refine ⟨?_, ?_, ?_⟩
  · intro chunks
    rw [pick_tag_eq_error, maxVote_none_iff, buildVotes_eq_nil_iff]
    constructor
    · intro h c hc; simp [h c hc]
    · intro h c hc
      simp only [Bool.not_eq_true] at h
      exact h c hc
  · intro chunks tag hok tag' hex
    obtain ⟨c, hc, hcontrib⟩ := hex
    obtain ⟨w, hmax⟩ := (pick_tag_eq_ok _ _).mp hok
    obtain ⟨hmem, hge⟩ := maxVote_spec _ _ hmax
    have hnd : (voteKeys (buildVotes chunks)).Nodup := by
      rw [buildVotes_eq_foldl]
      exact voteKeys_foldl_nodup _ _ (by simp [voteKeys])
    have hw : totalWeight chunks tag = w := by
      rw [← lookupW_buildVotes]; exact mem_votes_lookupW _ _ _ hmem hnd
    have htag' : tag' ∈ voteKeys (buildVotes chunks) :=
      (mem_voteKeys_buildVotes _ _).mpr ⟨c, hc, hcontrib⟩
    obtain ⟨⟨t', w'⟩, hmem', ht'⟩ := List.mem_map.mp htag'
    simp only at ht'
    have hw' : totalWeight chunks tag' = w' := by
      rw [← lookupW_buildVotes, ← ht']
      exact mem_votes_lookupW _ _ _ hmem' hnd
    rw [hw, hw']
    exact hge _ hmem'
  · simp +decide only [pick_tag_from_chunks, exVoteChunks, buildVotes, addVote,
      strTruthy, maxVote, List.foldl]
    norm_num

/-- Closed witness for C1, instantiating the voting theorem on the
specification's example: the losing tag's accumulated weight is bounded by the
winner's. -/
theorem pick_tag_voting_spec_witness :
    totalWeight exVoteChunks ("highway", "bus_stop") ≤
      totalWeight exVoteChunks ("amenity", "cafe") :=
  pick_tag_voting_spec.2.1 exVoteChunks ("amenity", "cafe")
    pick_tag_voting_spec.2.2 ("highway", "bus_stop")
    ⟨⟨5/10, "", "", "", some "highway", some "bus_stop"⟩,
      List.mem_cons_of_mem _ (List.mem_cons_of_mem _ (List.mem_cons_self _ _)),
      by decide⟩

/-- C9: a successful vote never fabricates a tag — the returned `(key, value)`
pair is carried, non-empty, by at least one chunk in the input list. -/
theorem pick_tag_no_fabrication :
    ∀ (chunks : List RetrievedChunk) (k v : String),
      pick_tag_from_chunks chunks = .ok (k, v) →
        ∃ c ∈ chunks, c.key = some k ∧ c.value = some v ∧ k ≠ "" ∧ v ≠ "" := by
  intro chunks k v hok
  obtain ⟨w, hmax⟩ := (pick_tag_eq_ok _ _).mp hok
  obtain ⟨hmem, -⟩ := maxVote_spec _ _ hmax
  have : (k, v) ∈ voteKeys (buildVotes chunks) :=
    List.mem_map.mpr ⟨((k, v), w), hmem, rfl⟩
  obtain ⟨c, hc, hcontrib⟩ := (mem_voteKeys_buildVotes _ _).mp this
  simp only [contributes, Bool.and_eq_true, beq_iff_eq, Bool.not_eq_eq_eq_not,
    Bool.not_true] at hcontrib
  obtain ⟨⟨⟨hk, hv⟩, hke⟩, hve⟩ := hcontrib
  exact ⟨c, hc, hk, hv,
    fun h => by rw [h] at hke; simp [String.isEmpty] at hke,
    fun h => by rw [h] at hve; simp [String.isEmpty] at hve⟩

/-- Closed witness for C9 at a concrete one-chunk evidence list. -/
theorem pick_tag_no_fabrication_witness :
    ∃ c ∈ [(⟨1, "", "", "", some "amenity", some "cafe"⟩ : RetrievedChunk)],
      c.key = some "amenity" ∧ c.value = some "cafe" ∧
      "amenity" ≠ "" ∧ "cafe" ≠ "" :=
  pick_tag_no_fabrication _ "amenity" "cafe" rfl

/-! ## JSON values

Python JSON payloads (the output of `json.loads` and the dictionaries passed
around by `src/llm/ollama_client.py` and `src/query/llm_parser.py`), modelled
with numbers as rationals. Objects are insertion-ordered field lists; `json`
keeps the last of duplicate keys, so lookup is last-wins. -/

inductive JValue where
  | jnull
  | jbool (b : Bool)
  | jnum (q : ℚ)
  | jstr (s : String)
  | jarr (elems : List JValue)
  | jobj (fields : List (String × JValue))

/-- Python `dict.get(k)`: `none` when the key is absent; the last binding wins
(matching how `json.loads` builds a `dict`); `none` on non-objects. -/
def jget : JValue → String → Option JValue
  | .jobj fields, k => (fields.reverse.find? (fun f => f.1 == k)).map Prod.snd
  | _, _ => none

/-- Python truthiness of a JSON value (`if not key`, `if place`, ...). -/
def jtruthy : JValue → Bool
  | .jnull => false
  | .jbool b => b
  | .jnum q => !decide (q = 0)
  | .jstr s => !s.isEmpty
  | .jarr l => !l.isEmpty
  | .jobj f => !f.isEmpty

/-- `isinstance(x, dict)`. -/
def JValue.isObj : JValue → Bool
  | .jobj _ => true
  | _ => false

/-- `isinstance(x, str)`. -/
def JValue.isStr : JValue → Bool
  | .jstr _ => true
  | _ => false

theorem jget_cons_ne (k' : String) (v : JValue) (fields : List (String × JValue))
    (k : String) (h : ¬k' = k) :
    jget (.jobj ((k', v) :: fields)) k = jget (.jobj fields) k := by
  simp only [jget, List.reverse_cons, List.find?_append]
  cases hf : (fields.reverse.find? (fun f => f.1 == k)) with
  | some f => simp [hf]
  | none =>
    simp only [hf, List.find?]
    rw [show ((k', v).1 == k) = false from beq_eq_false_iff_ne.mpr h]
    rfl

/-- `validate_llm_response` (`src/query/llm_parser.py`, lines 105-123): the data
must be a dict whose `tag` entry is a dict with truthy, string-typed `key` and
`value`. A missing `tag` yields Python `None`, which fails the `isinstance`
check, hence the `none` branch returns `false`. -/
def validate_llm_response (data : JValue) : Bool :=
  if !data.isObj then false
  else
    match jget data "tag" with
    | none => false
    | some tag =>
      if !tag.isObj then false
      else
        let key := (jget tag "key").getD .jnull
        let value := (jget tag "value").getD .jnull
        if !jtruthy key || !jtruthy value then false
        else if !key.isStr || !value.isStr then false
        else true

/-- The truthy-string test used by the validator phrased as a predicate on the
looked-up optional value. -/
theorem validate_field_char (o : Option JValue) :
    (jtruthy ((o.getD .jnull)) && (o.getD .jnull).isStr) = true ↔
      ∃ s, o = some (.jstr s) ∧ s ≠ "" := by
  cases o with
  | none => simp [jtruthy]
  | some v =>
    cases v <;>
      simp [jtruthy, JValue.isStr, String.isEmpty_iff, Bool.eq_false_iff]

/-- The validator's two-step `if not ... / isinstance` cascade as one Boolean. -/
theorem validate_body_char (ko vo : Option JValue) :
    (if (!jtruthy (ko.getD .jnull) || !jtruthy (vo.getD .jnull)) = true then false
     else if (!(ko.getD .jnull).isStr || !(vo.getD .jnull).isStr) = true then false
     else true) =
      ((jtruthy (ko.getD .jnull) && (ko.getD .jnull).isStr) &&
       (jtruthy (vo.getD .jnull) && (vo.getD .jnull).isStr)) := by
  by_cases h1 : jtruthy (ko.getD .jnull) = true <;>
    by_cases h2 : jtruthy (vo.getD .jnull) = true <;>
      by_cases h3 : (ko.getD .jnull).isStr = true <;>
        by_cases h4 : (vo.getD .jnull).isStr = true <;>
          simp [h1, h2, h3, h4]

theorem validate_unfold_obj (fields tagFields : List (String × JValue))
    (htag : jget (.jobj fields) "tag" = some (.jobj tagFields)) :
    validate_llm_response (.jobj fields) =
      ((jtruthy ((jget (.jobj tagFields) "key").getD .jnull) &&
        ((jget (.jobj tagFields) "key").getD .jnull).isStr) &&
       (jtruthy ((jget (.jobj tagFields) "value").getD .jnull) &&
        ((jget (.jobj tagFields) "value").getD .jnull).isStr)) := by
  rw [← validate_body_char]
  simp only [validate_llm_response, JValue.isObj, htag, Bool.not_true,
    Bool.false_eq_true, if_false]

/-- C4: the schema validator accepts exactly the well-formed mappings whose
`tag` sub-mapping carries non-empty string `key` and `value`; the `place` field
is never consulted; and it decides the specification's four examples as stated. -/
theorem validate_llm_response_spec :
    (∀ data : JValue, validate_llm_response data = true ↔
        ∃ tagFields k v, (∃ fields, data = .jobj fields) ∧
          jget data "tag" = some (.jobj tagFields) ∧
          jget (.jobj tagFields) "key" = some (.jstr k) ∧
          jget (.jobj tagFields) "value" = some (.jstr v) ∧
          k ≠ "" ∧ v ≠ "") ∧
    (∀ (fields : List (String × JValue)) (pv : JValue),
        validate_llm_response (.jobj (("place", pv) :: fields)) =
          validate_llm_response (.jobj fields)) ∧
    validate_llm_response
        (.jobj [("tag", .jobj [("key", .jstr "amenity"), ("value", .jstr "cafe")])]) =
      true ∧
    validate_llm_response (.jobj [("tag", .jobj [("key", .jstr "amenity")])]) = false ∧
    validate_llm_response (.jobj []) = false ∧
    validate_llm_response
        (.jobj [("tag", .jobj [("key", .jstr ""), ("value", .jstr "cafe")])]) = false := by
  refine ⟨?_, ?_, rfl, rfl, rfl, rfl⟩
  · intro data
    cases data with
    | jobj fields =>
      cases htag : jget (.jobj fields) "tag" with
      | none => simp [validate_llm_response, JValue.isObj, htag]
      | some tag =>
        cases tag with
        | jobj tagFields =>
          rw [validate_unfold_obj fields tagFields htag, Bool.and_eq_true,
            validate_field_char, validate_field_char]
          constructor
          · rintro ⟨⟨k, hk1, hk2⟩, ⟨v, hv1, hv2⟩⟩
            exact ⟨tagFields, k, v, ⟨fields, rfl⟩, rfl, hk1, hv1, hk2, hv2⟩
          · rintro ⟨tf, k, v, -, htag2, hkey, hval, hk, hv⟩
            injection htag2 with h2
            injection h2 with h3
            subst h3
            exact ⟨⟨k, hkey, hk⟩, ⟨v, hval, hv⟩⟩
        | jnull => simp [validate_llm_response, JValue.isObj, htag]
        | jbool b => simp [validate_llm_response, JValue.isObj, htag]
        | jnum q => simp [validate_llm_response, JValue.isObj, htag]
        | jstr s => simp [validate_llm_response, JValue.isObj, htag]
        | jarr l => simp [validate_llm_response, JValue.isObj, htag]
    | jnull => simp [validate_llm_response, JValue.isObj, jget]
    | jbool b => simp [validate_llm_response, JValue.isObj, jget]
    | jnum q => simp [validate_llm_response, JValue.isObj, jget]
    | jstr s => simp [validate_llm_response, JValue.isObj, jget]
    | jarr l => simp [validate_llm_response, JValue.isObj, jget]
  · intro fields pv
    have h : jget (.jobj (("place", pv) :: fields)) "tag" = jget (.jobj fields) "tag" :=
      jget_cons_ne _ _ _ _ (by decide)
    simp only [validate_llm_response, JValue.isObj, h]

/-- Closed witness for C4, applying the validator characterization to the
specification's valid example. -/
theorem validate_llm_response_spec_witness :
    ∃ tagFields k v,
      (∃ fields, (JValue.jobj
          [("tag", .jobj [("key", .jstr "amenity"), ("value", .jstr "cafe")])]) =
        .jobj fields) ∧
      jget (.jobj [("tag", .jobj [("key", .jstr "amenity"), ("value", .jstr "cafe")])])
          "tag" = some (.jobj tagFields) ∧
      jget (.jobj tagFields) "key" = some (.jstr k) ∧
      jget (.jobj tagFields) "value" = some (.jstr v) ∧
      k ≠ "" ∧ v ≠ "" :=
  (validate_llm_response_spec.1 _).mp validate_llm_response_spec.2.2.1

/-! ## `json.loads` and the three-tier extraction

An executable model of `json.loads` (default settings) and of
`_parse_json_from_content` in `src/llm/ollama_client.py`. Simplifications that
do not affect the claims: numbers are rationals (Python distinguishes int and
float), the non-finite constants `NaN`/`Infinity` are not modelled, `\u` escapes
do not pair surrogates, and `str.strip`/`\s` use the ASCII whitespace set. -/

/-- ASCII whitespace stripped by Python `str.strip()` and matched by `\s`. -/
def pyWsChar (c : Char) : Bool :=
  c = ' ' || c = '\t' || c = '\n' || c = '\r' || c = '\x0b' || c = '\x0c'

def pyStripList (l : List Char) : List Char :=
  ((l.dropWhile pyWsChar).reverse.dropWhile pyWsChar).reverse

/-- Python `str.strip()`. -/
def pyStrip (s : String) : String := String.mk (pyStripList s.data)

/-- JSON inter-token whitespace. -/
def jsonWs (c : Char) : Bool := c = ' ' || c = '\t' || c = '\n' || c = '\r'

def skipWs (l : List Char) : List Char := l.dropWhile jsonWs

def hexVal (c : Char) : Option Nat :=
  if '0' ≤ c ∧ c ≤ '9' then some (c.toNat - '0'.toNat)
  else if 'a' ≤ c ∧ c ≤ 'f' then some (c.toNat - 'a'.toNat + 10)
  else if 'A' ≤ c ∧ c ≤ 'F' then some (c.toNat - 'A'.toNat + 10)
  else none

/-- Single-character JSON string escapes. -/
def escChar : Char → Option Char
  | '"' => some '"'
  | '\\' => some '\\'
  | '/' => some '/'
  | 'b' => some '\x08'
  | 'f' => some '\x0c'
  | 'n' => some '\n'
  | 'r' => some '\r'
  | 't' => some '\t'
  | _ => none

/-- Body of a JSON string after the opening quote; strict mode rejects raw
control characters. -/
def parseJString : Nat → List Char → String → Option (String × List Char)
  | 0, _, _ => none
  | fuel + 1, s, acc =>
    match s with
    | [] => none
    | '"' :: rest => some (acc, rest)
    | '\\' :: rest =>
      match rest with
      | 'u' :: h1 :: h2 :: h3 :: h4 :: rest2 =>
        match hexVal h1, hexVal h2, hexVal h3, hexVal h4 with
        | some a, some b, some c, some d =>
          parseJString fuel rest2 (acc.push (Char.ofNat (((a * 16 + b) * 16 + c) * 16 + d)))
        | _, _, _, _ => none
      | e :: rest2 =>
        match escChar e with
        | some c => parseJString fuel rest2 (acc.push c)
        | none => none
      | [] => none
    | c :: rest =>
      if c.toNat < 0x20 then none
      else parseJString fuel rest (acc.push c)

def digitsToNat (ds : List Char) : Nat :=
  ds.foldl (fun a c => a * 10 + (c.toNat - '0'.toNat)) 0

/-- Optional fraction part `(\.[0-9]+)?`: the dot is consumed only when at
least one digit follows. -/
def parseFrac (s : List Char) : List Char × List Char :=
  match s with
  | '.' :: rest =>
    let fd := rest.takeWhile Char.isDigit
    if fd.isEmpty then ([], s) else (fd, rest.dropWhile Char.isDigit)
  | _ => ([], s)

/-- Optional exponent part `([eE][+-]?[0-9]+)?` (0 when absent). -/
def parseExp (s : List Char) : Int × List Char :=
  match s with
  | e :: rest =>
    if e = 'e' || e = 'E' then
      let (sgn, rest2) :=
        match rest with
        | '+' :: r => ((1 : Int), r)
        | '-' :: r => ((-1 : Int), r)
        | _ => ((1 : Int), rest)
      let ed := rest2.takeWhile Char.isDigit
      if ed.isEmpty then (0, s)
      else (sgn * (digitsToNat ed : Int), rest2.dropWhile Char.isDigit)
    else (0, s)
  | [] => (0, s)

/-- JSON number: `-?(0|[1-9][0-9]*)(\.[0-9]+)?([eE][+-]?[0-9]+)?`, maximal
munch, exactly the scanner regex of Python's `json` module. -/
def parseNumber (s : List Char) : Option (ℚ × List Char) :=
  let (neg, s1) :=
    match s with
    | '-' :: rest => (true, rest)
    | _ => (false, s)
  match s1 with
  | [] => none
  | c :: _ =>
    if !c.isDigit then none
    else
      let (intDs, s2) :=
        match s1 with
        | '0' :: rest => (['0'], rest)
        | _ => (s1.takeWhile Char.isDigit, s1.dropWhile Char.isDigit)
      let (fracDs, s3) := parseFrac s2
      let (exp, s4) := parseExp s3
      let mag : Int := (digitsToNat (intDs ++ fracDs) : Int)
      let mantissa : Int := if neg then -mag else mag
      let scale : Int := exp - (fracDs.length : Int)
      let q : ℚ :=
        if fracDs.isEmpty ∧ exp = 0 then (mantissa : ℚ)
        else if 0 ≤ scale then (mantissa : ℚ) * ((10 : ℚ) ^ scale.toNat)
        else (mantissa : ℚ) / ((10 : ℚ) ^ (-scale).toNat)
      some (q, s4)

mutual

/-- One JSON value, leading whitespace allowed, returning the unconsumed rest. -/
def parseValue : Nat → List Char → Option (JValue × List Char)
  | 0, _ => none
  | fuel + 1, s =>
    match skipWs s with
    | [] => none
    | 'n' :: 'u' :: 'l' :: 'l' :: rest => some (.jnull, rest)
    | 't' :: 'r' :: 'u' :: 'e' :: rest => some (.jbool true, rest)
    | 'f' :: 'a' :: 'l' :: 's' :: 'e' :: rest => some (.jbool false, rest)
    | '"' :: rest =>
      match parseJString (fuel + 1) rest "" with
      | some (str, r) => some (.jstr str, r)
      | none => none
    | '[' :: rest =>
      match skipWs rest with
      | ']' :: r => some (.jarr [], r)
      | r => parseArrayItems fuel r []
    | '{' :: rest =>
      match skipWs rest with
      | '}' :: r => some (.jobj [], r)
      | r => parseObjectItems fuel r []
    | s' => (parseNumber s').map fun (q, r) => (.jnum q, r)

/-- Comma-separated array elements up to the closing bracket. -/
def parseArrayItems : Nat → List Char → List JValue → Option (JValue × List Char)
  | 0, _, _ => none
  | fuel + 1, s, acc =>
    match parseValue fuel s with
    | none => none
    | some (v, r) =>
      match skipWs r with
      | ',' :: r2 => parseArrayItems fuel r2 (acc ++ [v])
      | ']' :: r2 => some (.jarr (acc ++ [v]), r2)
      | _ => none

/-- Comma-separated `"key": value` members up to the closing brace. -/
def parseObjectItems : Nat → List Char → List (String × JValue) →
    Option (JValue × List Char)
  | 0, _, _ => none
  | fuel + 1, s, acc =>
    match skipWs s with
    | '"' :: rest =>
      match parseJString (fuel + 1) rest "" with
      | none => none
      | some (k, r) =>
        match skipWs r with
        | ':' :: r2 =>
          match parseValue fuel r2 with
          | none => none
          | some (v, r3) =>
            match skipWs r3 with
            | ',' :: r4 => parseObjectItems fuel r4 (acc ++ [(k, v)])
            | '}' :: r4 => some (.jobj (acc ++ [(k, v)]), r4)
            | _ => none
        | _ => none
    | _ => none

end

/-- `json.loads`: parse one value and require only whitespace after it. -/
def loads (s : String) : Option JValue :=
  let cs := s.data
  match parseValue (2 * cs.length + 2) cs with
  | some (v, rest) => if (skipWs rest).isEmpty then some v else none
  | none => none

/-- First occurrence of `pat` in a character list: the text before it and the
text after it. -/
def splitOnFirst (pat : List Char) : List Char → Option (List Char × List Char)
  | [] => if pat.isPrefixOf [] then some ([], []) else none
  | c :: cs =>
    if pat.isPrefixOf (c :: cs) then some ([], (c :: cs).drop pat.length)
    else (splitOnFirst pat cs).map fun p => (c :: p.1, p.2)

/-- The group captured by `re.search(r'```json\s*(.*?)\s*```', content, re.DOTALL)`:
the text between the first ` ```json ` marker and the next ` ``` ` fence,
trimmed (the lazy body together with the two greedy `\s*` borders trims exactly
the surrounding whitespace; a match starting at a later marker exists only if
one starts at the first marker). -/
def fencedCandidate (content : String) : Option String :=
  match splitOnFirst "```json".data content.data with
  | none => none
  | some (_, afterOpen) =>
    match splitOnFirst "```".data afterOpen with
    | none => none
    | some (interior, _) => some (pyStrip (String.mk interior))

/-- The substring from the first `\x7b` to the last `\x7d`, inclusive, provided
both exist in that order (`start != -1 and end != -1 and end > start`). -/
def braceCandidate (content : String) : Option String :=
  let cs := content.data
  match cs.findIdx? (fun c => c = '{'), cs.reverse.findIdx? (fun c => c = '}') with
  | some start, some ridx =>
    let stop := cs.length - 1 - ridx
    if start < stop then some (String.mk ((cs.drop start).take (stop - start + 1)))
    else none
  | _, _ => none

/-- Tier 1: `json.loads(content.strip())`. -/
def tier1 (content : String) : Option JValue := loads (pyStrip content)

/-- Tier 2: parse the interior of the first explicitly-JSON fenced block. -/
def tier2 (content : String) : Option JValue := (fencedCandidate content).bind loads

/-- Tier 3: parse the first-`\x7b`-to-last-`\x7d` substring. -/
def tier3 (content : String) : Option JValue := (braceCandidate content).bind loads

/-- `LLMResult` (`src/llm/ollama_client.py`). -/
structure LLMResult where
  ok : Bool
  data : JValue
  raw : String

/-- `_parse_json_from_content` (`src/llm/ollama_client.py`, lines 86-117): the
three recovery tiers tried in order, first success wins; on total failure
`ok=False`, empty data, and the original text as `raw`. -/
def parse_json_from_content (content : String) : LLMResult :=
  match tier1 content with
  | some d => ⟨true, d, content⟩
  | none =>
    match tier2 content with
    | some d => ⟨true, d, content⟩
    | none =>
      match tier3 content with
      | some d => ⟨true, d, content⟩
      | none => ⟨false, .jobj [], content⟩

/-- C3: structured extraction applies the three recovery tiers in order and
stops at the first success; `raw` always holds the original text; the result is
`ok=false` (with empty data) precisely when all three tiers fail. The last four
conjuncts check the specification's tier examples: plain JSON hits tier 1, a
fenced block hits tier 2 after tier 1 fails, an embedded object hits tier 3
after tiers 1-2 fail, and text with no JSON fails all three. -/
theorem parse_json_three_tiers :
    (∀ content, (parse_json_from_content content).raw = content) ∧
    (∀ content d, tier1 content = some d →
        parse_json_from_content content = ⟨true, d, content⟩) ∧
    (∀ content d, tier1 content = none → tier2 content = some d →
        parse_json_from_content content = ⟨true, d, content⟩) ∧
    (∀ content d, tier1 content = none → tier2 content = none →
        tier3 content = some d →
        parse_json_from_content content = ⟨true, d, content⟩) ∧
    (∀ content, tier1 content = none → tier2 content = none →
        tier3 content = none →
        parse_json_from_content content = ⟨false, .jobj [], content⟩) ∧
    (∀ content, (parse_json_from_content content).ok = false ↔
        tier1 content = none ∧ tier2 content = none ∧ tier3 content = none) ∧
    (parse_json_from_content "\x7b\"a\": 1\x7d" =
        ⟨true, .jobj [("a", .jnum 1)], "\x7b\"a\": 1\x7d"⟩ ∧
      tier1 "\x7b\"a\": 1\x7d" = some (.jobj [("a", .jnum 1)])) ∧
    (parse_json_from_content "```json\n\x7b\"a\": 1\x7d\n```" =
        ⟨true, .jobj [("a", .jnum 1)], "```json\n\x7b\"a\": 1\x7d\n```"⟩ ∧
      tier1 "```json\n\x7b\"a\": 1\x7d\n```" = none ∧
      tier2 "```json\n\x7b\"a\": 1\x7d\n```" = some (.jobj [("a", .jnum 1)])) ∧
    (parse_json_from_content "blah \x7b\"a\": 1\x7d blah" =
        ⟨true, .jobj [("a", .jnum 1)], "blah \x7b\"a\": 1\x7d blah"⟩ ∧
      tier1 "blah \x7b\"a\": 1\x7d blah" = none ∧
      tier2 "blah \x7b\"a\": 1\x7d blah" = none ∧
      tier3 "blah \x7b\"a\": 1\x7d blah" = some (.jobj [("a", .jnum 1)])) ∧
    parse_json_from_content "no json here" =
      ⟨false, .jobj [], "no json here"⟩ := by
  refine ⟨?_, ?_, ?_, ?_, ?_, ?_, ⟨rfl, rfl⟩, ⟨rfl, rfl, rfl⟩, ⟨rfl, rfl, rfl, rfl⟩, rfl⟩
  · intro content
    unfold parse_json_from_content
    cases tier1 content with
    | some d => rfl
    | none =>
      cases tier2 content with
      | some d => rfl
      | none => cases tier3 content with
        | some d => rfl
        | none => rfl
  · intro content d h1; simp [parse_json_from_content, h1]
  · intro content d h1 h2; simp [parse_json_from_content, h1, h2]
  · intro content d h1 h2 h3; simp [parse_json_from_content, h1, h2, h3]
  · intro content h1 h2 h3; simp [parse_json_from_content, h1, h2, h3]
  · intro content
    unfold parse_json_from_content
    cases h1 : tier1 content with
    | some d => simp
    | none =>
      cases h2 : tier2 content with
      | some d => simp
      | none => cases h3 : tier3 content with
        | some d => simp
        | none => simp

/-- Closed witness for C3: tier 1 succeeds on the plain-JSON example, and the
extractor returns exactly that parse. -/
theorem parse_json_three_tiers_witness :
    parse_json_from_content "\x7b\"a\": 1\x7d" =
      ⟨true, .jobj [("a", .jnum 1)], "\x7b\"a\": 1\x7d"⟩ :=
  parse_json_three_tiers.2.1 "\x7b\"a\": 1\x7d" (.jobj [("a", .jnum 1)]) rfl

/-- C10: any JSON top-level type is accepted by the extractor (for `"[1, 2]"`
the result is `ok=true` with a non-mapping payload), but the schema validator
rejects every non-mapping value, so such output never validates. -/
theorem parse_nonmapping_never_validates :
    parse_json_from_content "[1, 2]" =
      ⟨true, .jarr [.jnum 1, .jnum 2], "[1, 2]"⟩ ∧
    (∀ v : JValue, v.isObj = false → validate_llm_response v = false) ∧
    validate_llm_response (.jarr [.jnum 1, .jnum 2]) = false := by
  refine ⟨rfl, ?_, rfl⟩
  intro v h
  cases v <;> simp_all [validate_llm_response, JValue.isObj]

/-- Closed witness for C10 at the non-mapping value parsed from `"[1, 2]"`. -/
theorem parse_nonmapping_never_validates_witness :
    validate_llm_response (.jarr [.jnum 1, .jnum 2]) = false :=
  parse_nonmapping_never_validates.2.1 (.jarr [.jnum 1, .jnum 2]) rfl

/-! ## The oracle call

`call_ollama_json` performs one `requests.post` whose outcome is modelled as an
explicit parameter: either the HTTP round trip yields a message content string,
or it fails in one of the ways the `except` clauses distinguish. The function
itself is total — every failure is converted into a value, never re-raised. -/

inductive OracleOutcome where
  | success (content : String)
  | connectionError
  | timeout
  | requestError (msg : String)
  | otherError (msg : String)

/-- `call_ollama_json` (`src/llm/ollama_client.py`, lines 24-83) given the
outcome of its single network call. -/
def call_ollama_json (timeout_s : Nat) (outcome : OracleOutcome) : LLMResult :=
  match outcome with
  | .success content => parse_json_from_content content
  | .connectionError =>
    ⟨false, .jobj [], "Error: Cannot connect to Ollama. Is it running? (ollama serve)"⟩
  | .timeout =>
    ⟨false, .jobj [], "Error: Ollama request timed out after " ++
      toString timeout_s ++ "s"⟩
  | .requestError msg => ⟨false, .jobj [], "Request error: " ++ msg⟩
  | .otherError msg => ⟨false, .jobj [], "Unexpected error: " ++ msg⟩

theorem string_append_ne_empty_of_left (a b : String) (h : a ≠ "") : a ++ b ≠ "" := by
  intro he
  apply h
  have hl : (a ++ b).length = 0 := by rw [he]; rfl
  rw [String.length_append] at hl
  have : a.length = 0 := by omega
  cases a with
  | mk data =>
    cases data with
    | nil => rfl
    | cons c cs => simp [String.length] at this

/-- C6: every network/connection/timeout failure of the oracle call is captured
inside the extractor (the embedding is a total function of the outcome, so
nothing propagates), and reported as `ok=false` with empty data and a non-empty
diagnostic `raw` string. -/
theorem ollama_failures_captured :
    ∀ (timeout_s : Nat) (outcome : OracleOutcome),
      (∀ c, outcome ≠ .success c) →
        (call_ollama_json timeout_s outcome).ok = false ∧
        (call_ollama_json timeout_s outcome).data = .jobj [] ∧
        (call_ollama_json timeout_s outcome).raw ≠ "" := by
  intro t outcome h
  cases outcome with
  | success c => exact absurd rfl (h c)
  | connectionError =>
    exact ⟨rfl, rfl, by
      show ("Error: Cannot connect to Ollama. Is it running? (ollama serve)" : String) ≠ ""
      decide⟩
  | timeout =>
    exact ⟨rfl, rfl, string_append_ne_empty_of_left _ _
      (string_append_ne_empty_of_left _ _ (by decide))⟩
  | requestError msg =>
    exact ⟨rfl, rfl, string_append_ne_empty_of_left _ _ (by decide)⟩
  | otherError msg =>
    exact ⟨rfl, rfl, string_append_ne_empty_of_left _ _ (by decide)⟩

/-- Closed witness for C6 at the connection-failure outcome. -/
theorem ollama_failures_captured_witness :
    (call_ollama_json 120 .connectionError).ok = false ∧
    (call_ollama_json 120 .connectionError).data = .jobj [] ∧
    (call_ollama_json 120 .connectionError).raw ≠ "" :=
  ollama_failures_captured 120 .connectionError (fun c h => by cases h)

/-! ## The place heuristic

`simple_place_heuristic` (`src/pipeline.py`, lines 36-52) runs `re.search` with
`re.IGNORECASE` over the stripped query for, in order,
`\bin\s+([A-Za-zÅÄÖåäöØøÆæ\-\s]{2,})$` (twice: the second pattern only appends
`\s*` before `$`, and since the class contains `\s` it matches exactly when the
first does, with the same group) and `(?:from|at|near)\s+([...]{2,})$`, and
returns the stripped group. Because the pattern is anchored at the end and the
class contains `\s`, a match starting at position `i` with remainder `r` after
the keyword exists iff `r` starts with whitespace, has length at least 3, runs
to the end of the string, and consists of class characters only; the greedy
`\s+`/`{2,}` interplay makes the stripped group equal the stripped remainder.
`re.search` returns the leftmost such position, modelled by a left-to-right
scan. Case folding and `\b`/`\s`/`strip` character sets are modelled over ASCII
plus the Nordic letters appearing in the class. -/

/-- Case-insensitive literal match of `kw` at the head, returning the rest. -/
def ciMatch : List Char → List Char → Option (List Char)
  | [], s => some s
  | _ :: _, [] => none
  | p :: ps, c :: cs => if p.toLower = c.toLower then ciMatch ps cs else none

/-- The character class `[A-Za-zÅÄÖåäöØøÆæ\-\s]`. -/
def placeClassChar (c : Char) : Bool :=
  ('A' ≤ c && c ≤ 'Z') || ('a' ≤ c && c ≤ 'z') ||
  c = 'Å' || c = 'Ä' || c = 'Ö' || c = 'å' || c = 'ä' || c = 'ö' ||
  c = 'Ø' || c = 'ø' || c = 'Æ' || c = 'æ' || c = '-' || pyWsChar c

/-- Word characters for `\b` (ASCII plus the class letters). -/
def wordChar (c : Char) : Bool :=
  ('A' ≤ c && c ≤ 'Z') || ('a' ≤ c && c ≤ 'z') || ('0' ≤ c && c ≤ '9') || c = '_' ||
  c = 'Å' || c = 'Ä' || c = 'Ö' || c = 'å' || c = 'ä' || c = 'ö' ||
  c = 'Ø' || c = 'ø' || c = 'Æ' || c = 'æ'

/-- Whether `\s+([class]{2,})$` matches the whole remainder `r` after a keyword;
on success the (greedy) group, before stripping, trims to the same string as
`r`, so `r` itself is returned. -/
def tailCapture (r : List Char) : Option (List Char) :=
  match r with
  | [] => none
  | c :: _ =>
    if pyWsChar c && decide (3 ≤ r.length) && r.all placeClassChar then some r
    else none

/-- Attempt `kw\s+([class]{2,})$` at the current position. -/
def tryKw (kw : List Char) (s : List Char) : Option (List Char) :=
  match ciMatch kw s with
  | some rem => tailCapture rem
  | none => none

/-- Attempt `\bin\s+([class]{2,})$` at the current position, `prev` being the
character before it (for the word boundary). -/
def tryIn (prev : Option Char) (s : List Char) : Option (List Char) :=
  if (match prev with | none => true | some p => !wordChar p) then
    tryKw ['i', 'n'] s
  else none

/-- Leftmost match of `\bin\s+([class]{2,})$`, scanning with the previous
character to decide the word boundary. -/
def scanIn : Option Char → List Char → Option (List Char)
  | _, [] => none
  | prev, c :: cs =>
    match tryIn prev (c :: cs) with
    | some r => some r
    | none => scanIn (some c) cs

/-- Leftmost match of `kw\s+([class]{2,})$` with no word boundary. -/
def scanKw (kw : List Char) : List Char → Option (List Char)
  | [] => none
  | c :: cs =>
    match tryKw kw (c :: cs) with
    | some r => some r
    | none => scanKw kw cs

/-- Leftmost match of `(?:from|at|near)\s+([class]{2,})$`; the alternatives
start with distinct letters, so at most one can match at a position. -/
def scanKw3 : List Char → Option (List Char)
  | [] => none
  | c :: cs =>
    match tryKw ['f', 'r', 'o', 'm'] (c :: cs) with
    | some r => some r
    | none =>
      match tryKw ['a', 't'] (c :: cs) with
      | some r => some r
      | none =>
        match tryKw ['n', 'e', 'a', 'r'] (c :: cs) with
        | some r => some r
        | none => scanKw3 cs

/-- `simple_place_heuristic` (`src/pipeline.py`, lines 36-52). -/
def simple_place_heuristic (query : String) : Option String :=
  match scanIn none (pyStripList query.data) with
  | some r => some (pyStrip (String.mk r))
  | none =>
    match scanKw3 (pyStripList query.data) with
    | some r => some (pyStrip (String.mk r))
    | none => none

/-- The heuristic condition exactly as the claim's sentence reads: the trimmed
query ends with a trailing phrase `in X` / `from X` / `at X` / `near X` (no
word-boundary requirement anywhere), `X` a class run of length at least 2; the
value is the captured span, trimmed. -/
def claimPlacePhrase (query : String) : Option String :=
  match scanKw ['i', 'n'] (pyStripList query.data) with
  | some r => some (pyStrip (String.mk r))
  | none =>
    match scanKw3 (pyStripList query.data) with
    | some r => some (pyStrip (String.mk r))
    | none => none

/-- `DEFAULT_PLACE` (`src/pipeline.py`, line 16). -/
def DEFAULT_PLACE : String := "Lund"

/-- Steps 2-3 of `run_query` (`src/pipeline.py`, lines 87-101): the `place`
variable holds `None`, the LLM's JSON value, or a heuristic/default string. -/
def resolvePlace (llm_ok : Bool) (data : JValue) (query : String) : JValue :=
  let place0 : Option JValue := if llm_ok then jget data "place" else none
  let place1 : JValue := place0.getD .jnull
  if jtruthy place1 then place1
  else
    let place2 : JValue :=
      match simple_place_heuristic query with
      | some p => .jstr p
      | none => .jnull
    if jtruthy place2 then place2 else .jstr DEFAULT_PLACE

theorem ciMatch_suffix : ∀ (kw s rem : List Char), ciMatch kw s = some rem →
    rem.IsSuffix s := by
  intro kw
  induction kw with
  | nil =>
    intro s rem h
    simp only [ciMatch, Option.some.injEq] at h
    subst h
    exact List.suffix_refl _
  | cons p ps ih =>
    intro s rem h
    cases s with
    | nil => cases h
    | cons c cs =>
      simp only [ciMatch] at h
      by_cases hc : p.toLower = c.toLower
      · rw [if_pos hc] at h
        exact (ih cs rem h).trans (List.suffix_cons c cs)
      · rw [if_neg hc] at h; cases h

theorem tailCapture_eq (x r : List Char) (h : tailCapture x = some r) :
    r = x ∧ 3 ≤ x.length := by
  cases x with
  | nil => cases h
  | cons c cs =>
    simp only [tailCapture] at h
    by_cases hc : (pyWsChar c && decide (3 ≤ (c :: cs).length) &&
        (c :: cs).all placeClassChar) = true
    · rw [if_pos hc] at h
      injection h with h'
      subst h'
      refine ⟨rfl, ?_⟩
      simp only [Bool.and_eq_true, decide_eq_true_eq] at hc
      exact hc.1.2
    · rw [if_neg hc] at h; cases h

theorem tryKw_suffix (kw s r : List Char) (h : tryKw kw s = some r) :
    r.IsSuffix s ∧ 3 ≤ r.length := by
  unfold tryKw at h
  split at h
  · rename_i rem hci
    obtain ⟨hre, hlen⟩ := tailCapture_eq rem r h
    subst hre
    exact ⟨ciMatch_suffix _ _ _ hci, hlen⟩
  · cases h

theorem tryIn_suffix (prev : Option Char) (s r : List Char)
    (h : tryIn prev s = some r) : r.IsSuffix s ∧ 3 ≤ r.length := by
  unfold tryIn at h
  split at h
  · exact tryKw_suffix _ _ _ h
  · cases h

theorem scanIn_suffix : ∀ (s : List Char) (prev : Option Char) (r : List Char),
    scanIn prev s = some r → r.IsSuffix s ∧ 3 ≤ r.length := by
  intro s
  induction s with
  | nil => intro prev r h; cases h
  | cons c cs ih =>
    intro prev r h
    rw [scanIn] at h
    split at h
    · rename_i r' heq
      injection h with h'
      subst h'
      exact tryIn_suffix _ _ _ heq
    · obtain ⟨h1, h2⟩ := ih (some c) r h
      exact ⟨h1.trans (List.suffix_cons c cs), h2⟩

theorem scanKw3_suffix : ∀ (s r : List Char), scanKw3 s = some r →
    r.IsSuffix s ∧ 3 ≤ r.length := by
  intro s
  induction s with
  | nil => intro r h; cases h
  | cons c cs ih =>
    intro r h
    rw [scanKw3] at h
    split at h
    · rename_i r' heq
      injection h with h'
      subst h'
      exact tryKw_suffix _ _ _ heq
    · split at h
      · rename_i r' heq
        injection h with h'
        subst h'
        exact tryKw_suffix _ _ _ heq
      · split at h
        · rename_i r' heq
          injection h with h'
          subst h'
          exact tryKw_suffix _ _ _ heq
        · obtain ⟨h1, h2⟩ := ih r h
          exact ⟨h1.trans (List.suffix_cons c cs), h2⟩

theorem pyStripList_getLast (l : List Char) (x : Char)
    (h : (pyStripList l).getLast? = some x) : pyWsChar x = false := by
  unfold pyStripList at h
  rw [List.getLast?_reverse] at h
  have hd := List.head?_dropWhile_not pyWsChar ((l.dropWhile pyWsChar).reverse)
  rw [h] at hd
  exact hd

theorem pyStripList_eq_nil (l : List Char) (h : pyStripList l = []) :
    ∀ x ∈ l, pyWsChar x = true := by
  unfold pyStripList at h
  rw [List.reverse_eq_nil_iff, List.dropWhile_eq_nil_iff] at h
  intro x hx
  rcases List.mem_append.mp ((List.takeWhile_append_dropWhile pyWsChar l) ▸ hx)
    with h1 | h1
  · exact List.mem_takeWhile_imp h1
  · exact h x (List.mem_reverse.mpr h1)

theorem suffix_getLast? (r s : List Char) (h : r.IsSuffix s) (hne : r ≠ []) :
    s.getLast? = r.getLast? := by
  obtain ⟨t, rfl⟩ := h
  rw [List.getLast?_append]
  cases hr : r.getLast? with
  | none =>
    exact absurd (List.getLast?_isSome.mpr hne) (by simp [hr])
  | some a => rfl

/-- A successful heuristic match never produces the empty string: the capture
is a suffix of the stripped query, whose last character is not whitespace. -/
theorem simple_place_heuristic_ne_empty (q p : String)
    (h : simple_place_heuristic q = some p) : p ≠ "" := by
  have main : ∀ r : List Char, r.IsSuffix (pyStripList q.data) → 3 ≤ r.length →
      pyStrip (String.mk r) ≠ "" := by
    intro r hsuf hlen hemp
    have hrne : r ≠ [] := by
      intro e; subst e; simp at hlen
    have hgl : (pyStripList q.data).getLast? = r.getLast? :=
      suffix_getLast? r _ hsuf hrne
    obtain ⟨x, hx⟩ : ∃ x, r.getLast? = some x := by
      cases hr : r.getLast? with
      | none => exact absurd (List.getLast?_isSome.mpr hrne) (by simp [hr])
      | some a => exact ⟨a, rfl⟩
    have hxw : pyWsChar x = false := pyStripList_getLast _ x (by rw [hgl, hx])
    have hnil : pyStripList r = [] := by
      have hd := congrArg String.data hemp
      simpa [pyStrip] using hd
    have hxr : x ∈ r := by
      obtain ⟨hne', he⟩ :=
        List.mem_getLast?_eq_getLast (show x ∈ r.getLast? by rw [hx]; rfl)
      rw [he]
      exact List.getLast_mem hne'
    rw [pyStripList_eq_nil r hnil x hxr] at hxw
    cases hxw
  unfold simple_place_heuristic at h
  split at h
  · rename_i r hr
    injection h with h'
    subst h'
    exact main r (scanIn_suffix _ _ _ hr).1 (scanIn_suffix _ _ _ hr).2
  · split at h
    · rename_i r hr
      injection h with h'
      subst h'
      exact main r (scanKw3_suffix _ _ hr).1 (scanKw3_suffix _ _ hr).2
    · cases h

/-- C2 (amended): place resolution is total and ordered — a validated LLM
response with a truthy `place` wins regardless of the query; otherwise the
heuristic's captured span (trimmed) is used when the stripped query matches one
of the trailing patterns, where the `in` form additionally requires a word
boundary before `in` while `from`/`at`/`near` may match even inside a word;
otherwise the fixed default is used. The result is always truthy (non-empty),
and the specification's examples resolve as stated. -/
theorem resolve_place_chain :
    (∀ (llm_ok : Bool) (data : JValue) (query : String),
        jtruthy (resolvePlace llm_ok data query) = true) ∧
    (∀ (data : JValue) (query : String) (p : JValue),
        jget data "place" = some p → jtruthy p = true →
        resolvePlace true data query = p) ∧
    (∀ (llm_ok : Bool) (data : JValue) (query : String) (p : String),
        jtruthy ((if llm_ok then jget data "place" else none).getD .jnull) = false →
        simple_place_heuristic query = some p →
        resolvePlace llm_ok data query = .jstr p) ∧
    (∀ (llm_ok : Bool) (data : JValue) (query : String),
        jtruthy ((if llm_ok then jget data "place" else none).getD .jnull) = false →
        simple_place_heuristic query = none →
        resolvePlace llm_ok data query = .jstr DEFAULT_PLACE) ∧
    simple_place_heuristic "bus stops near Lund" = some "Lund" ∧
    resolvePlace true (.jobj [("place", .jstr "Malmö")]) "show bus stops" =
      .jstr "Malmö" ∧
    resolvePlace false (.jobj []) "show bus stops" = .jstr "Lund" := by
  have hstr : ∀ p : String, p ≠ "" → jtruthy (.jstr p) = true := by
    intro p hp
    simp only [jtruthy, Bool.not_eq_true']
    exact Bool.eq_false_iff.mpr (fun he => hp ((String.isEmpty_iff _).mp he))
  refine ⟨?_, ?_, ?_, ?_, rfl, rfl, rfl⟩
  · intro llm_ok data query
    simp only [resolvePlace]
    by_cases h1 : jtruthy ((if llm_ok then jget data "place" else none).getD .jnull) = true
    · simp [h1]
    · rw [Bool.not_eq_true] at h1
      cases hh : simple_place_heuristic query with
      | none => simp [h1, hh]; rfl
      | some p =>
        have hp := hstr p (simple_place_heuristic_ne_empty _ _ hh)
        simp [h1, hh, hp]
  · intro data query pl hget htr
    simp only [resolvePlace, if_true, hget, Option.getD_some, htr, if_pos]
  · intro llm_ok data query p h1 hh
    have hp := hstr p (simple_place_heuristic_ne_empty _ _ hh)
    simp [resolvePlace, h1, hh, hp]
  · intro llm_ok data query h1 hh
    simp [resolvePlace, h1, hh]
    rfl

/-- Closed witness for C2's amended chain: the LLM-supplied place is chosen
regardless of the query text. -/
theorem resolve_place_chain_witness :
    resolvePlace true (.jobj [("place", .jstr "Malmö")]) "bus stops near Lund" =
      .jstr "Malmö" :=
  resolve_place_chain.2.1 _ _ (.jstr "Malmö") rfl rfl

/-- C2 counterexample: the query `"Dublin Cork"` ends with the trailing phrase
`in Cork` in the claim's (boundary-free) reading, so the claim predicts place
`"Cork"`; the code's pattern requires a word boundary before `in` (the `l` of
`Dublin` is a word character), the heuristic finds nothing, and the default
`"Lund"` is resolved instead. -/
theorem place_claim_counterexample :
    claimPlacePhrase "Dublin Cork" = some "Cork" ∧
    simple_place_heuristic "Dublin Cork" = none ∧
    resolvePlace false (.jobj []) "Dublin Cork" = .jstr "Lund" ∧
    ("Cork" : String) ≠ "Lund" := by
  exact ⟨rfl, rfl, rfl, by decide⟩

/-! ## The retriever

`FaissRetriever.retrieve` (`src/rag/retriever.py`, lines 60-98). The embedding
model and the FAISS call are external collaborators; their output — the
rank-aligned pairs `(distances[0][rank], indices[0][rank])` (FAISS pads missing
results with index `-1`) — is an explicit argument, and the loop over it is the
embedded code. One metadata entry corresponds to one parsed element of the
metadata JSON array (the `dict.get` defaults are folded into the fields). -/

structure ChunkMeta where
  page_content : String
  url : String
  title : String
  key : Option String
  value : Option String

/-- The result loop of `FaissRetriever.retrieve`: out-of-range indices are
skipped via `continue`, in-range ones produce a `RetrievedChunk`. -/
def retrieveCore (meta : List ChunkMeta) (search : List (ℚ × Int)) :
    List RetrievedChunk :=
  search.filterMap fun di =>
    if di.2 < 0 ∨ (meta.length : Int) ≤ di.2 then none
    else
      match meta[di.2.toNat]? with
      | none => none
      | some m => some ⟨di.1, m.page_content, m.url, m.title, m.key, m.value⟩

/-- The scores of the produced chunks are the scores of the in-range search
hits, in order. -/
theorem retrieveCore_scores (meta : List ChunkMeta) (search : List (ℚ × Int)) :
    (retrieveCore meta search).map (·.score) =
      (search.filter
        (fun di => !decide (di.2 < 0 ∨ (meta.length : Int) ≤ di.2))).map Prod.fst := by
  induction search with
  | nil => rfl
  | cons di rest ih =>
    by_cases h : di.2 < 0 ∨ (meta.length : Int) ≤ di.2
    · simp only [retrieveCore, List.filterMap_cons, if_pos h] at ih ⊢
      rw [List.filter_cons_of_neg (by simp [h])]
      exact ih
    · have hlt : di.2.toNat < meta.length := by omega
      have hget : meta[di.2.toNat]? = some meta[di.2.toNat] :=
        List.getElem?_eq_getElem hlt
      simp only [retrieveCore, List.filterMap_cons, if_neg h, hget] at ih ⊢
      rw [List.filter_cons_of_pos (by simp [h])]
      simp only [List.map_cons]
      exact congrArg _ ih

/-- C7: `retrieve` returns at most `k` results; if the search hits come back in
non-increasing score order (the FAISS contract), the produced chunks are in
non-increasing score order; and the output is a function of the search output
and the metadata only, hence identical for identical input. -/
theorem retrieve_ordering_det :
    ∀ (meta : List ChunkMeta) (search : List (ℚ × Int)) (k : ℕ),
      search.length = k →
        (retrieveCore meta search).length ≤ k ∧
        ((search.map Prod.fst).Sorted (· ≥ ·) →
          ((retrieveCore meta search).map (·.score)).Sorted (· ≥ ·)) ∧
        (∀ (meta' : List ChunkMeta) (search' : List (ℚ × Int)),
          meta = meta' → search = search' →
          retrieveCore meta search = retrieveCore meta' search') := by
  intro meta search k hk
  refine ⟨?_, ?_, ?_⟩
  · rw [← hk]
    exact List.length_filterMap_le _ _
  · intro hsorted
    rw [retrieveCore_scores]
    unfold List.Sorted at hsorted ⊢
    have h1 : search.Pairwise (fun a b : ℚ × Int => a.1 ≥ b.1) :=
      List.pairwise_map.mp hsorted
    exact List.pairwise_map.mpr (h1.filter _)
  · intro meta' search' h1 h2
    rw [h1, h2]

/-- Closed witness for C7 on a two-hit search result. -/
theorem retrieve_ordering_det_witness :
    (retrieveCore [⟨"c", "u", "t", none, none⟩]
      [((1 : ℚ), (0 : Int)), ((1 / 2 : ℚ), (-1 : Int))]).length ≤ 2 :=
  (retrieve_ordering_det [⟨"c", "u", "t", none, none⟩]
    [((1 : ℚ), (0 : Int)), ((1 / 2 : ℚ), (-1 : Int))] 2 rfl).1

/-- C8: search hits whose index is out of range for the metadata array are
silently skipped — filtering them away first changes nothing — so the result
can be shorter than the search result, and on an empty corpus the result is
always the empty sequence (never an error: the embedding is total). -/
theorem retrieve_skips_oob :
    ∀ (meta : List ChunkMeta) (search : List (ℚ × Int)),
      retrieveCore meta search =
        retrieveCore meta (search.filter
          (fun di => !decide (di.2 < 0 ∨ (meta.length : Int) ≤ di.2))) ∧
      (retrieveCore meta search).length ≤ search.length ∧
      (meta = [] → retrieveCore meta search = []) := by
  intro meta search
  refine ⟨?_, List.length_filterMap_le _ _, ?_⟩
  · induction search with
    | nil => rfl
    | cons di rest ih =>
      by_cases h : di.2 < 0 ∨ (meta.length : Int) ≤ di.2
      · rw [List.filter_cons_of_neg (by simp [h])]
        simp only [retrieveCore, List.filterMap_cons, if_pos h] at ih ⊢
        exact ih
      · rw [List.filter_cons_of_pos (by simp [h])]
        have hlt : di.2.toNat < meta.length := by omega
        have hget : meta[di.2.toNat]? = some meta[di.2.toNat] :=
          List.getElem?_eq_getElem hlt
        simp only [retrieveCore, List.filterMap_cons, if_neg h, hget] at ih ⊢
        exact congrArg _ ih
  · intro hm
    subst hm
    induction search with
    | nil => rfl
    | cons di rest ih =>
      have h : di.2 < 0 ∨ (([] : List ChunkMeta).length : Int) ≤ di.2 := by
        rcases lt_or_ge di.2 0 with h | h
        · exact Or.inl h
        · exact Or.inr (by simpa using h)
      simp only [retrieveCore, List.filterMap_cons, if_pos h] at ih ⊢
      exact ih

/-- Closed witness for C8: a search hit with index 5 against an empty corpus
yields the empty result. -/
theorem retrieve_skips_oob_witness :
    retrieveCore [] [((1 : ℚ), (5 : Int))] = [] :=
  (retrieve_skips_oob [] [((1 : ℚ), (5 : Int))]).2.2 rfl

/-! ## The orchestrator

`run_query` (`src/pipeline.py`, lines 55-193). The effectful collaborators —
retriever construction/search, the oracle round trip, `geocode_to_bbox`,
`osmium_extract_bbox`, `extract_nodes_to_geojson` — are explicit outcome fields
of the environment (`Except.error` models a raised exception's message). The
returned Python dict is an ordered key/value list. The per-item rendering of
the `evidence` entry (score rounding, snippet truncation) is presentation only
and kept as the chunk list; no claim depends on it. -/

/-- Python `str()` as used in the f-strings of the result dicts (display only;
every claim-relevant occurrence is a string already). -/
def pyStr : JValue → String
  | .jstr s => s
  | .jnull => "None"
  | .jbool true => "True"
  | .jbool false => "False"
  | .jnum q => toString q
  | .jarr _ => "[…]"
  | .jobj _ => "\x7b…\x7d"

/-- A value of the result dict. -/
inductive RVal where
  | vs (s : String)
  | vb (b : Bool)
  | vn (n : ℕ)
  | vj (j : JValue)
  | vbox (b : ℚ × ℚ × ℚ × ℚ)
  | vev (chunks : List RetrievedChunk)

/-- Outcomes of the pipeline's effectful collaborators for one query. -/
structure PipelineEnv where
  retrieval : Except String (List RetrievedChunk)
  llmOutcome : OracleOutcome
  geocode : Except String (ℚ × ℚ × ℚ × ℚ)
  osmium : Except String Unit
  nodes : Except String ℕ

/-- `llm_parse_query` (`src/query/llm_parser.py`, lines 62-102): wraps the
oracle call's result into the `ok`/`data`/`raw` dict. -/
def llm_parse_query (outcome : OracleOutcome) : LLMResult :=
  let r := call_ollama_json 120 outcome
  if r.ok then ⟨true, r.data, r.raw⟩ else ⟨false, .jobj [], r.raw⟩

/-- `llm_ok = llm_res.get("ok", False) and validate_llm_response(llm_res.get("data", \x7b\x7d))`
(`src/pipeline.py`, line 84). -/
def pipeLlmOk (env : PipelineEnv) : Bool :=
  (llm_parse_query env.llmOutcome).ok &&
    validate_llm_response (llm_parse_query env.llmOutcome).data

/-- Step 4's LLM tag field read: `tag_data = llm_res["data"].get("tag", \x7b\x7d);
tag_data.get(fieldName)`, or Python `None` when `llm_ok` is false. -/
def llmTagField (llm_ok : Bool) (data : JValue) (fieldName : String) : JValue :=
  if llm_ok then (jget ((jget data "tag").getD (.jobj [])) fieldName).getD .jnull
  else .jnull

/-- Steps 5-7 of `run_query` and the success-dict assembly, after place and tag
are fixed. -/
def run_query_after_tag (env : PipelineEnv) (query : String)
    (chunks : List RetrievedChunk) (llm_res : LLMResult) (llm_ok : Bool)
    (place key value : JValue) : List (String × RVal) :=
  match env.geocode with
  | .error e =>
    [("query", .vs query), ("place", .vj place),
     ("error", .vs ("Geocoding failed for '" ++ pyStr place ++ "': " ++ e)),
     ("success", .vb false)]
  | .ok bbox =>
    match env.osmium with
    | .error e =>
      [("query", .vs query), ("place", .vj place),
       ("chosen_tag", .vs (pyStr key ++ "=" ++ pyStr value)),
       ("error", .vs ("OSM extraction failed: " ++ e)),
       ("success", .vb false)]
    | .ok _ =>
      match env.nodes with
      | .error e =>
        [("query", .vs query), ("place", .vj place),
         ("chosen_tag", .vs (pyStr key ++ "=" ++ pyStr value)),
         ("error", .vs ("Node extraction failed: " ++ e)),
         ("success", .vb false)]
      | .ok n =>
        [("success", .vb true), ("query", .vs query), ("place", .vj place),
         ("chosen_tag", .vs (pyStr key ++ "=" ++ pyStr value)),
         ("bbox", .vbox bbox), ("count", .vn n),
         ("geojson_path", .vs "output/output.geojson"),
         ("evidence", .vev chunks), ("llm_ok", .vb llm_ok),
         ("llm_raw", .vs llm_res.raw),
         ("llm_explanation", .vj ((jget llm_res.data "explanation").getD (.jstr ""))),
         ("llm_confidence", .vj ((jget llm_res.data "confidence").getD (.jnum 0)))]

/-- `run_query` (`src/pipeline.py`, lines 55-193). -/
def run_query (env : PipelineEnv) (query : String) : List (String × RVal) :=
  match env.retrieval with
  | .error e =>
    [("query", .vs query),
     ("error", .vs ("RAG retrieval failed: " ++ e)),
     ("success", .vb false)]
  | .ok chunks =>
    let llm_res := llm_parse_query env.llmOutcome
    let llm_ok := pipeLlmOk env
    let place := resolvePlace llm_ok llm_res.data query
    if !jtruthy (llmTagField llm_ok llm_res.data "key") ||
       !jtruthy (llmTagField llm_ok llm_res.data "value") then
      match pick_tag_from_chunks chunks with
      | .error e =>
        [("query", .vs query),
         ("error", .vs ("Could not determine OSM tag: " ++ e)),
         ("success", .vb false)]
      | .ok (k, v) =>
        run_query_after_tag env query chunks llm_res llm_ok place (.jstr k) (.jstr v)
    else
      run_query_after_tag env query chunks llm_res llm_ok place
        (llmTagField llm_ok llm_res.data "key")
        (llmTagField llm_ok llm_res.data "value")

/-- C5 (amended): when tag resolution fails with the no-tag error, the pipeline
aborts with a failure record carrying the original query and a human-readable
message — and, contrary to the claim, this record does not include the
already-resolved place (nor partial evidence): its keys are exactly
`query`, `error`, `success`. -/
theorem run_query_tag_failure :
    ∀ (env : PipelineEnv) (query : String) (chunks : List RetrievedChunk)
      (e : String),
      env.retrieval = .ok chunks →
      (!jtruthy (llmTagField (pipeLlmOk env) (llm_parse_query env.llmOutcome).data "key") ||
       !jtruthy (llmTagField (pipeLlmOk env) (llm_parse_query env.llmOutcome).data "value")) = true →
      pick_tag_from_chunks chunks = .error e →
      run_query env query =
        [("query", .vs query),
         ("error", .vs ("Could not determine OSM tag: " ++ e)),
         ("success", .vb false)] ∧
      (run_query env query).map Prod.fst = ["query", "error", "success"] ∧
      ¬"place" ∈ (run_query env query).map Prod.fst := by
  intro env query chunks e hret hcond hpick
  have hrq : run_query env query =
      [("query", .vs query),
       ("error", .vs ("Could not determine OSM tag: " ++ e)),
       ("success", .vb false)] := by
    unfold run_query
    rw [hret]
    simp only [hcond, if_true, hpick]
  refine ⟨hrq, ?_, ?_⟩
  · rw [hrq]; rfl
  · rw [hrq]
    show ¬"place" ∈ (["query", "error", "success"] : List String)
    decide

/-- Closed witness for C5's amended theorem at a concrete no-tag run. -/
theorem run_query_tag_failure_witness :
    run_query
        ⟨.ok [⟨1, "c", "u", "t", none, none⟩], .connectionError,
         .error "g", .error "o", .error "n"⟩ "find cafes" =
      [("query", .vs "find cafes"),
       ("error", .vs ("Could not determine OSM tag: " ++
         ("No valid (key, value) found in retrieved chunks. " ++
          "Consider expanding wiki seeds or adjusting the query."))),
       ("success", .vb false)] ∧
    (run_query
        ⟨.ok [⟨1, "c", "u", "t", none, none⟩], .connectionError,
         .error "g", .error "o", .error "n"⟩ "find cafes").map Prod.fst =
      ["query", "error", "success"] ∧
    ¬"place" ∈ (run_query
        ⟨.ok [⟨1, "c", "u", "t", none, none⟩], .connectionError,
         .error "g", .error "o", .error "n"⟩ "find cafes").map Prod.fst :=
  run_query_tag_failure
    ⟨.ok [⟨1, "c", "u", "t", none, none⟩], .connectionError,
     .error "g", .error "o", .error "n"⟩ "find cafes"
    [⟨1, "c", "u", "t", none, none⟩]
    ("No valid (key, value) found in retrieved chunks. " ++
     "Consider expanding wiki seeds or adjusting the query.")
    rfl rfl rfl

/-- C5 counterexample: a concrete run in which the oracle is unreachable and
the single retrieved chunk carries no tag — the pipeline aborts with the
no-tag failure record, and that record contains no `place` entry (the claim
says the resolved place is still reported). -/
theorem run_query_tag_failure_no_place :
    run_query
        ⟨.ok [⟨1, "c", "u", "t", none, none⟩], .connectionError,
         .error "g", .error "o", .error "n"⟩ "show bus stops" =
      [("query", .vs "show bus stops"),
       ("error", .vs ("Could not determine OSM tag: " ++
         "No valid (key, value) found in retrieved chunks. " ++
         "Consider expanding wiki seeds or adjusting the query.")),
       ("success", .vb false)] ∧
    ¬"place" ∈ (run_query
        ⟨.ok [⟨1, "c", "u", "t", none, none⟩], .connectionError,
         .error "g", .error "o", .error "n"⟩ "show bus stops").map Prod.fst := by
  constructor
  · rfl
  · rw [show (run_query
        ⟨.ok [⟨1, "c", "u", "t", none, none⟩], .connectionError,
         .error "g", .error "o", .error "n"⟩ "show bus stops").map Prod.fst =
      ["query", "error", "success"] from rfl]
    decide

end GeoAI
